import Mathlib

/-!
Shallow embedding of the Job-Busters ghost-job analysis pipeline
(admission controller, dedup layer, snapshot engine, cadence analyzer,
scoring aggregator) together with theorems settling the specification
claims about it.

Sources embedded:
- request-lock admission operations (utils/supabase actions);
- the job_updates / jobs upsert sequence of the orchestrator;
- snapshot hashing and the snapshot gate (job snapshot helpers);
- the cadence analyzer and the scoring aggregator (scoring/score.ts).

Machine numbers of the source (JS floats) are embedded as rationals, and
as reals where a square root occurs; JS bigints are embedded as integers;
cryptographic digests are abstract function parameters.
-/

namespace JobBusters

/- ================================================================
   Part 1: Admission Controller (request_lock row operations).
   A row of the request_lock table holds the per-user lock state.
   ================================================================ -/

/-- One row of the request_lock table, keyed by user id: the per-user
admission lock plus token bucket. -/
structure RequestLock where
  is_available : Bool
  tokens_remaining : Int
deriving Repr, DecidableEq

/-- The row created lazily on first request: is_available=true,
tokens_remaining=3. -/
def initialLock : RequestLock :=
  { is_available := true, tokens_remaining := 3 }

/-- Embedding of request_lock_and_tokens: reads the user row, creating it
with the initial allotment when absent. Returns the row state after the
call together with the (is_available, tokens) pair reported to the caller. -/
def request_lock_and_tokens (row : Option RequestLock) :
    Option RequestLock × (Bool × Int) :=
  match row with
  | none => (some initialLock, (initialLock.is_available, initialLock.tokens_remaining))
  | some r => (some r, (r.is_available, r.tokens_remaining))

/-- Embedding of set_request_lock (the lock-acquisition step): a
conditional update flips is_available to false only where it was true and
returns that row's tokens_remaining; when a row was matched the second
update then stores tokens_remaining - 1 unconditionally. Returns the row
state after the call and the boolean the function returns (true = grant).
The storage-failure compensation path (restore is_available on a failed
decrement) is not modelled: the embedding treats storage writes as
succeeding. -/
def set_request_lock (row : Option RequestLock) : Option RequestLock × Bool :=
  match row with
  | none => (none, false)
  | some r =>
    if r.is_available then
      (some { is_available := false, tokens_remaining := r.tokens_remaining - 1 }, true)
    else
      (some r, false)

/-- Embedding of release_request_lock: unconditionally sets
is_available=true on the user's row (no-op when the row is absent). -/
def release_request_lock (row : Option RequestLock) : Option RequestLock :=
  match row with
  | none => none
  | some r => some { r with is_available := true }

/- ================================================================
   Part 2: Scoring aggregator (score.ts): weights and finalizeScore.
   JS numbers are embedded as rationals.
   ================================================================ -/

/-- The fixed per-signal weight table type of score.ts. -/
structure ScoreWeights where
  freshness : ℚ
  link_integrity : ℚ
  salary_disclosure : ℚ
  salary_min_present : ℚ
  source_credibility : ℚ
  skills_present : ℚ
  buzzword_penalty : ℚ
  comp_period_clarity : ℚ
  update_cadence : ℚ
  content_change_quality : ℚ
deriving Repr, DecidableEq

/-- DEFAULT_WEIGHTS of score.ts, with the JS decimal literals embedded as
the rationals they denote. -/
def DEFAULT_WEIGHTS : ScoreWeights :=
  { freshness := 16/100
    link_integrity := 9/100
    salary_disclosure := 21/100
    salary_min_present := 13/100
    source_credibility := 9/100
    skills_present := 9/100
    buzzword_penalty := 4/100
    comp_period_clarity := 4/100
    update_cadence := 5/100
    content_change_quality := 5/100 }

/-- Sum of all ten per-signal weights of a weight table. -/
def weightSum (w : ScoreWeights) : ℚ :=
  w.freshness + w.link_integrity + w.salary_disclosure + w.salary_min_present +
    w.source_credibility + w.skills_present + w.buzzword_penalty +
    w.comp_period_clarity + w.update_cadence + w.content_change_quality

/-- clamp01 of score.ts: values below 0 go to 0, above 1 go to 1 (the
non-finite guard of the source cannot fire on rationals). -/
def clamp01 (x : ℚ) : ℚ :=
  if x < 0 then 0 else if 1 < x then 1 else x

/-- The dynamic property lookup (w as any)[k] of finalizeScore: the weight
field named k, or none when k is not one of the ten signal names. -/
def weightOf (w : ScoreWeights) (k : String) : Option ℚ :=
  if k = "freshness" then some w.freshness
  else if k = "link_integrity" then some w.link_integrity
  else if k = "salary_disclosure" then some w.salary_disclosure
  else if k = "salary_min_present" then some w.salary_min_present
  else if k = "source_credibility" then some w.source_credibility
  else if k = "skills_present" then some w.skills_present
  else if k = "buzzword_penalty" then some w.buzzword_penalty
  else if k = "comp_period_clarity" then some w.comp_period_clarity
  else if k = "update_cadence" then some w.update_cadence
  else if k = "content_change_quality" then some w.content_change_quality
  else none

/-- A breakdown map: the (signal name, value) entries of the breakdown
record, one entry per key, in object-key order. All values are numbers in
the source, so the typeof-number filter of finalizeScore keeps every entry. -/
abbrev Breakdown := List (String × ℚ)

/-- Contribution of one breakdown entry to sumW of finalizeScore: its
weight when that weight exists and is positive, else 0. -/
def usedWeight (w : ScoreWeights) (kv : String × ℚ) : ℚ :=
  match weightOf w kv.1 with
  | some wt => if 0 < wt then wt else 0
  | none => 0

/-- Contribution of one breakdown entry to sum of finalizeScore:
weight * clamp01(value) when that weight exists and is positive, else 0. -/
def weightedValue (w : ScoreWeights) (kv : String × ℚ) : ℚ :=
  match weightOf w kv.1 with
  | some wt => if 0 < wt then wt * clamp01 kv.2 else 0
  | none => 0

/-- sumW of finalizeScore: the sum of the weights actually used. -/
def sumUsedWeights (w : ScoreWeights) (b : Breakdown) : ℚ :=
  (b.map (usedWeight w)).sum

/-- sum of finalizeScore: the weighted sum of the clamped present values. -/
def sumWeighted (w : ScoreWeights) (b : Breakdown) : ℚ :=
  (b.map (weightedValue w)).sum

/-- finalizeScore of score.ts: weighted average over the present signals
with positive weights; falls back to the plain average of the clamped
present values when no weight applies; 0 on an empty breakdown; result
clamped to the unit interval. -/
def finalizeScore (b : Breakdown) (w : ScoreWeights) : ℚ :=
  let sumW := sumUsedWeights w b
  let sum := sumWeighted w b
  if 0 < sumW then clamp01 (sum / sumW)
  else if b.length = 0 then 0
  else clamp01 ((b.map (fun kv => clamp01 kv.2)).sum / (b.length : ℚ))

/-- A breakdown holding only the freshness and link_integrity signals,
both at 1.0 (the aggregator fixture of the testable properties). -/
def freshLinkBreakdown : Breakdown :=
  [("freshness", 1), ("link_integrity", 1)]

/-- A breakdown in which every one of the ten signals is present (used to
state what the weights used sum to when every optional signal is present). -/
def allSignalsBreakdown : Breakdown :=
  [("freshness", 1), ("link_integrity", 1), ("salary_disclosure", 1),
   ("salary_min_present", 1), ("source_credibility", 1), ("skills_present", 1),
   ("buzzword_penalty", 1), ("comp_period_clarity", 1), ("update_cadence", 1),
   ("content_change_quality", 1)]

/- ================================================================
   Part 3: Job cache / dedup layer: the job_updates insert sequence
   (InsertToJobUpdatesTable + insertIntoJobTable, ordered as in the
   orchestrator's re-ingest branch).
   ================================================================ -/

/-- The jobs-table column relevant to the update-event logic: the
source-reported updated_at, embedded as its parsed epoch timestamp (a
rational number of milliseconds), none for a SQL null / JS-falsy value.
Only parseable timestamp strings are in the model's domain, which covers
every input the claim quantifies over. -/
structure JobsRow where
  updated_at : Option ℚ
deriving Repr, DecidableEq

/-- The persistent state touched by a re-ingest: the jobs row and the
append-only job_updates log (the ats_updated_at values of its rows, in
insertion order). -/
structure IngestState where
  job : JobsRow
  job_updates : List ℚ
deriving Repr, DecidableEq

/-- Embedding of InsertToJobUpdatesTable: it reads the job row's current
updated_at; when the incoming value is absent it inserts nothing; when
the stored value is absent it inserts the incoming value unconditionally;
otherwise it inserts exactly when the incoming timestamp is strictly
newer than the stored one. The value inserted into job_updates is the
incoming ats_updated_at. Returns the new state and the inserted flag.
(The unconditional last_seen stamping is irrelevant to the claims and is
not modelled.) -/
def InsertToJobUpdatesTable (st : IngestState) (incoming : Option ℚ) :
    IngestState × Bool :=
  match incoming with
  | none => (st, false)
  | some i =>
    match st.job.updated_at with
    | none => ({ st with job_updates := st.job_updates ++ [i] }, true)
    | some e =>
      if e < i then ({ st with job_updates := st.job_updates ++ [i] }, true)
      else (st, false)

/-- Embedding of insertIntoJobTable restricted to the modelled columns:
the upsert by composite key overwrites the stored updated_at with the
incoming one. -/
def insertIntoJobTable (st : IngestState) (incoming : Option ℚ) : IngestState :=
  { st with job := { updated_at := incoming } }

/-- The orchestrator's re-ingest sequence for an existing job (analyzeJob
step 3b): InsertToJobUpdatesTable runs first, then the jobs-table upsert
overwrites updated_at. -/
def reingestExisting (st : IngestState) (incoming : Option ℚ) : IngestState :=
  insertIntoJobTable (InsertToJobUpdatesTable st incoming).1 incoming

/-- The hypothetical reversed sequence (upsert first, then
InsertToJobUpdatesTable), used to state that running the insert strictly
before the overwrite is what makes the comparison see the prior value. -/
def reingestOverwriteFirst (st : IngestState) (incoming : Option ℚ) : IngestState :=
  (InsertToJobUpdatesTable (insertIntoJobTable st incoming) incoming).1

/-- A state holding a previously stored updated_at of 1 and an empty
update log, for concrete instances. -/
def ingestStateOne : IngestState :=
  { job := { updated_at := some 1 }, job_updates := [] }

/- ================================================================
   Part 4: Snapshot gate (job snapshot helpers + the orchestrator's
   snapshot branch).
   ================================================================ -/

/-- A job_snapshots row, restricted to the fields the gate and the
change-quality signal read. ats_updated_at is the stored string | null
value (the empty string is a possible stored value). -/
structure dbJobSnapshot where
  ats_updated_at : Option String
  content_hash : String
  metadata_hash : String
  content_simhash : String
  metadata_simhash : String
deriving Repr, DecidableEq

/-- JS falsiness of a string | null value: null and the empty string are
falsy, every other string is truthy. -/
def jsFalsy (o : Option String) : Bool :=
  match o with
  | none => true
  | some s => s = ""

/-- Embedding of hasAtsUpdatedAtChanged: no previous snapshot counts as a
change; both values JS-falsy counts as no change; exactly one falsy
counts as a change; otherwise strict string inequality. -/
def hasAtsUpdatedAtChanged (oldSnapshot : Option dbJobSnapshot)
    (newAtsUpdatedAt : Option String) : Bool :=
  match oldSnapshot with
  | none => true
  | some o =>
    if jsFalsy o.ats_updated_at && jsFalsy newAtsUpdatedAt then false
    else if jsFalsy o.ats_updated_at || jsFalsy newAtsUpdatedAt then true
    else o.ats_updated_at != newAtsUpdatedAt

/-- Embedding of the orchestrator's snapshot gate (analyzeJob, snapshot
logic of the re-ingest branch): a new job always snapshots; an existing
job with no snapshot yet snapshots; otherwise a snapshot is created
exactly when hasAtsUpdatedAtChanged holds of the latest snapshot and the
incoming snapshot data's ats_updated_at. -/
def snapshotDecision (existingJob : Bool) (latest : Option dbJobSnapshot)
    (incoming : dbJobSnapshot) : Bool :=
  if existingJob = false then true
  else
    match latest with
    | none => true
    | some s => hasAtsUpdatedAtChanged (some s) incoming.ats_updated_at

/-- Number of snapshot rows the gate inserts during one ingest. -/
def snapshotsCreated (existingJob : Bool) (latest : Option dbJobSnapshot)
    (incoming : dbJobSnapshot) : Nat :=
  if snapshotDecision existingJob latest incoming then 1 else 0

/-- The claim's difference predicate on recorded updated_at values: a
transition from or to null counts as a difference, null to null does not,
and two non-null values differ exactly when the strings differ. -/
def specAtsDiffers (a b : Option String) : Bool :=
  match a, b with
  | none, none => false
  | none, some _ => true
  | some _, none => true
  | some x, some y => x != y

/-- Normalization used by the amended claim: a falsy stored value (null
or the empty string) is treated as absent. -/
def normalizeAts (a : Option String) : Option String :=
  if jsFalsy a then none else a

/-- A snapshot whose recorded ats_updated_at is the empty string. -/
def snapshotEmptyAts : dbJobSnapshot :=
  { ats_updated_at := some "", content_hash := "c0", metadata_hash := "m0",
    content_simhash := "0", metadata_simhash := "0" }

/-- A snapshot whose recorded ats_updated_at is null. -/
def snapshotNullAts : dbJobSnapshot :=
  { ats_updated_at := none, content_hash := "c1", metadata_hash := "m1",
    content_simhash := "1", metadata_simhash := "1" }

/-- A snapshot with null ats_updated_at but different content hashes than
snapshotNullAts. -/
def snapshotNullAtsAltContent : dbJobSnapshot :=
  { ats_updated_at := none, content_hash := "c2", metadata_hash := "m2",
    content_simhash := "2", metadata_simhash := "2" }

/- ================================================================
   Part 5: Exact metadata hash (job snapshot helpers,
   generateMetadataHash).
   ================================================================ -/

/-- An adapter job as consumed by the persistence and hashing layer:
the composite key plus the scraped attributes. Nullable source fields are
Options. -/
structure AdapterJob where
  ats_provider : String
  tenant_slug : String
  external_job_id : String
  title : Option String
  company_name : Option String
  location : Option String
  absolute_url : String
  first_published : Option String
  updated_at : Option String
  requisition_id : Option String
  content : Option String
deriving Repr, DecidableEq

/-- Lower-case hexadecimal digit, as JSON.stringify emits in escape
sequences. -/
def hexDigitChar (n : Nat) : Char :=
  if n < 10 then Char.ofNat (48 + n) else Char.ofNat (97 + (n - 10))

/-- JSON string escaping of one character, as JSON.stringify performs it
on the metadata strings. -/
def jsonEscapeChar (c : Char) : String :=
  if c = '"' then "\\\""
  else if c = '\\' then "\\\\"
  else if c = '\x08' then "\\b"
  else if c = '\t' then "\\t"
  else if c = '\n' then "\\n"
  else if c = '\x0c' then "\\f"
  else if c = '\r' then "\\r"
  else if c.toNat < 32 then
    "\\u00" ++ String.mk [hexDigitChar (c.toNat / 16), hexDigitChar (c.toNat % 16)]
  else String.singleton c

/-- A JSON string literal: the escaped characters between double quotes. -/
def jsonQuote (s : String) : String :=
  "\"" ++ String.join (s.toList.map jsonEscapeChar) ++ "\""

/-- A JSON value for a string | null field. -/
def jsonValue : Option String → String
  | none => "null"
  | some s => jsonQuote s

/-- The canonical JSON projection hashed by generateMetadataHash:
JSON.stringify of the extracted metadata object with the replacer array
Object.keys(metadata).sort(), i.e. the six keys company_name,
first_published, location, requisition_id, title, updated_at in sorted
order. -/
def metadataProjection (j : AdapterJob) : String :=
  "\x7b\"company_name\":" ++ jsonValue j.company_name ++
    ",\"first_published\":" ++ jsonValue j.first_published ++
    ",\"location\":" ++ jsonValue j.location ++
    ",\"requisition_id\":" ++ jsonValue j.requisition_id ++
    ",\"title\":" ++ jsonValue j.title ++
    ",\"updated_at\":" ++ jsonValue j.updated_at ++ "\x7d"

/-- Embedding of generateMetadataHash, parameterized by the cryptographic
digest (SHA-256 hex in the source): the digest of the canonical JSON
projection. -/
def generateMetadataHash (digest : String → String) (j : AdapterJob) : String :=
  digest (metadataProjection j)

/-- A concrete adapter job for the C4 instances. -/
def metadataJobA : AdapterJob :=
  { ats_provider := "greenhouse", tenant_slug := "acme", external_job_id := "1",
    title := some "Engineer", company_name := some "Acme",
    location := some "NYC", absolute_url := "https://acme.example/jobs/1",
    first_published := some "2024-01-01", updated_at := some "2024-01-02",
    requisition_id := some "R1", content := some "body text" }

/-- The same job as metadataJobA except for updated_at, which is not one
of the claim's five fields. -/
def metadataJobB : AdapterJob :=
  { metadataJobA with updated_at := some "2024-03-04" }

/-- The same job as metadataJobA except for the content body. -/
def metadataJobAContentAlt : AdapterJob :=
  { metadataJobA with content := some "different body" }

/- ================================================================
   Part 6: Simhash Hamming distance (job snapshot helpers,
   simhashHammingDistance / isSimhashChangeSignificant). Stored simhashes
   are strings; the source parses them with BigInt(), XORs with bigint
   two's-complement semantics, and counts set bits with a shift loop that
   only runs while the value is strictly positive.
   ================================================================ -/

/-- JS whitespace characters (ASCII subset) as trimmed or split on by the
source's string handling. -/
def jsIsSpace (c : Char) : Bool :=
  c = ' ' || c = '\t' || c = '\n' || c = '\r' || c = '\x0b' || c = '\x0c'

/-- Trim of leading and trailing whitespace, as BigInt(string) performs
before parsing. -/
def jsTrimChars (l : List Char) : List Char :=
  ((l.dropWhile jsIsSpace).reverse.dropWhile jsIsSpace).reverse

/-- Decimal digit value of a character. -/
def digitVal (c : Char) : Option Nat :=
  if 48 ≤ c.toNat ∧ c.toNat ≤ 57 then some (c.toNat - 48) else none

/-- Hexadecimal digit value of a character. -/
def hexVal (c : Char) : Option Nat :=
  if 48 ≤ c.toNat ∧ c.toNat ≤ 57 then some (c.toNat - 48)
  else if 97 ≤ c.toNat ∧ c.toNat ≤ 102 then some (c.toNat - 87)
  else if 65 ≤ c.toNat ∧ c.toNat ≤ 70 then some (c.toNat - 55)
  else none

/-- Octal digit value of a character. -/
def octVal (c : Char) : Option Nat :=
  if 48 ≤ c.toNat ∧ c.toNat ≤ 55 then some (c.toNat - 48) else none

/-- Binary digit value of a character. -/
def binVal (c : Char) : Option Nat :=
  if c = '0' then some 0 else if c = '1' then some 1 else none

/-- Positional accumulation of a digit string; none on any invalid digit. -/
def parseDigitsAux (valOf : Char → Option Nat) (base : Nat) :
    List Char → Nat → Option Nat
  | [], acc => some acc
  | c :: rest, acc =>
    match valOf c with
    | some v => parseDigitsAux valOf base rest (acc * base + v)
    | none => none

/-- A nonempty all-valid digit string parsed in the given base. -/
def parseDigits (valOf : Char → Option Nat) (base : Nat) (l : List Char) :
    Option Nat :=
  match l with
  | [] => none
  | _ => parseDigitsAux valOf base l 0

/-- Embedding of BigInt(string): whitespace-trimmed; empty means 0; an
optional sign followed by decimal digits; or an 0x / 0o / 0b prefixed
magnitude; anything else throws, modelled as none. -/
def parseBigInt (s : String) : Option Int :=
  match jsTrimChars s.toList with
  | [] => some 0
  | '0' :: 'x' :: rest => (parseDigits hexVal 16 rest).map (fun n => (n : Int))
  | '0' :: 'X' :: rest => (parseDigits hexVal 16 rest).map (fun n => (n : Int))
  | '0' :: 'o' :: rest => (parseDigits octVal 8 rest).map (fun n => (n : Int))
  | '0' :: 'O' :: rest => (parseDigits octVal 8 rest).map (fun n => (n : Int))
  | '0' :: 'b' :: rest => (parseDigits binVal 2 rest).map (fun n => (n : Int))
  | '0' :: 'B' :: rest => (parseDigits binVal 2 rest).map (fun n => (n : Int))
  | '+' :: rest => (parseDigits digitVal 10 rest).map (fun n => (n : Int))
  | '-' :: rest => (parseDigits digitVal 10 rest).map (fun n => -(n : Int))
  | l => (parseDigits digitVal 10 l).map (fun n => (n : Int))

/-- The bit-counting loop of simhashHammingDistance on the nonnegative
case: add the low bit, shift right, until zero. -/
def natPopcount (n : Nat) : Nat :=
  if n = 0 then 0
  else n % 2 + natPopcount (n / 2)
termination_by n
decreasing_by exact Nat.div_lt_self (Nat.pos_of_ne_zero (by assumption)) (by norm_num)

/-- Embedding of simhashHammingDistance: parse both fingerprints with
BigInt(), XOR them, and count set bits with a loop guarded by
strictly-positive; any parse failure is caught and yields the maximum
distance 64. (A negative XOR, impossible for stored fingerprints, skips
the loop and yields 0, as in the source.) -/
def simhashHammingDistance (simhash1 simhash2 : String) : Nat :=
  match parseBigInt simhash1, parseBigInt simhash2 with
  | some hash1, some hash2 =>
    let x := Int.xor hash1 hash2
    if x ≤ 0 then 0 else natPopcount x.toNat
  | _, _ => 64

/-- Embedding of isSimhashChangeSignificant: the change is significant
exactly when the Hamming distance strictly exceeds the threshold
(default 10). -/
def isSimhashChangeSignificant (oldSimhash newSimhash : String)
    (threshold : Nat := 10) : Bool :=
  decide (threshold < simhashHammingDistance oldSimhash newSimhash)

/- ================================================================
   Part 7: Simhash generation (job snapshot helpers, generateSimhash).
   The SHA-256 digest of a token is an abstract parameter digest :
   String -> Nat, standing for the little-endian value of the digest
   bytes: the source reads bit i of the digest as
   (bytes[i / 8] >>> (i % 8)) &&& 1, which is exactly testBit i of that
   little-endian value.
   ================================================================ -/

/-- A JS word character (the regex class of word characters): ASCII
letters, digits, underscore. -/
def isWordChar (c : Char) : Bool :=
  (65 ≤ c.toNat ∧ c.toNat ≤ 90) ∨ (97 ≤ c.toNat ∧ c.toNat ≤ 122) ∨
    (48 ≤ c.toNat ∧ c.toNat ≤ 57) ∨ c = '_'

/-- The punctuation-stripping replacement: word characters and whitespace
survive, everything else becomes a space. -/
def normalizeChar (c : Char) : Char :=
  if isWordChar c || jsIsSpace c then c else ' '

/-- Single pass splitting a character list on whitespace runs, carrying
the current token in reverse: the split-then-filter-nonempty of the
source. -/
def tokenizeAux : List Char → List Char → List String
  | [], cur => if cur.isEmpty then [] else [String.mk cur.reverse]
  | c :: rest, cur =>
    if jsIsSpace c then
      if cur.isEmpty then tokenizeAux rest []
      else String.mk cur.reverse :: tokenizeAux rest []
    else tokenizeAux rest (c :: cur)

/-- Splitting a character list on whitespace runs into its nonempty
maximal non-whitespace tokens. -/
def tokenizeChars (l : List Char) : List String :=
  tokenizeAux l []

/-- The source's tokenizer: lowercase each character, strip punctuation,
split on whitespace, keep nonempty tokens. -/
def tokenize (text : String) : List String :=
  tokenizeChars ((text.toList.map Char.toLower).map normalizeChar)

/-- The early-exit guard of generateSimhash: the input is empty or
whitespace-only (text falsy or trims to the empty string). -/
def isWhitespaceOnly (text : String) : Bool :=
  text.toList.all jsIsSpace

/-- The per-bit-position accumulator of generateSimhash: +1 for each
token whose digest has bit i set, -1 for each token where it is clear. -/
def simhashWeight (digest : String → Nat) (tokens : List String) (i : Nat) : Int :=
  (tokens.map (fun t => if (digest t).testBit i then (1:Int) else -1)).sum

/-- Embedding of generateSimhash: 0 on empty or whitespace-only input and
on an empty token list; otherwise the 64-bit value assembled by setting
bit i exactly when the accumulator at position i is strictly positive. -/
def generateSimhash (digest : String → Nat) (text : String) : Nat :=
  if isWhitespaceOnly text then 0
  else
    let tokens := tokenize text
    if tokens.isEmpty then 0
    else
      (List.range 64).foldl
        (fun acc i =>
          if 0 < simhashWeight digest tokens i then acc ||| (1 <<< i) else acc) 0

/- ================================================================
   Part 8: Cadence analyzer (score.ts, featureUpdateCadence).
   Each timestamp string reaches the analyzer as new Date(ts).getTime();
   the embedding takes each input as an Option of that parsed epoch value
   in milliseconds (none = the NaN of an unparseable string, filtered out
   by Number.isFinite). The float arithmetic is embedded in the
   rationals; the square root of the variance — and hence the CV and the
   final score — lives in the reals. The source sorts numerically with
   (a, b) => a - b, producing the unique ascending reordering, embedded
   as insertion sort.
   ================================================================ -/

open scoped Classical

/-- Milliseconds per day, the divisor converting intervals to days. -/
def msPerDay : ℚ := 86400000

/-- Consecutive inter-arrival intervals in days of a timestamp list. -/
def intervalsOf : List ℚ → List ℚ
  | [] => []
  | [_] => []
  | a :: b :: rest => (b - a) / msPerDay :: intervalsOf (b :: rest)

/-- Mean of a list of rationals (sum over length). -/
def listMean (l : List ℚ) : ℚ :=
  l.sum / (l.length : ℚ)

/-- Population variance of a list of rationals. -/
def listVariance (l : List ℚ) : ℚ :=
  ((l.map (fun v => (v - listMean l) ^ 2)).sum) / (l.length : ℚ)

/-- The valid timestamps (finite parses) sorted ascending. -/
def validSorted (ts : List (Option ℚ)) : List ℚ :=
  (ts.filterMap id).insertionSort (· ≤ ·)

/-- clamp01 of score.ts on the reals (no NaN exists to guard against). -/
noncomputable def clamp01R (x : ℝ) : ℝ :=
  if x < 0 then 0 else if 1 < x then 1 else x

/-- Embedding of featureUpdateCadence: neutral 0.5 with fewer than 4
given or fewer than 4 valid timestamps (or no intervals); otherwise the
coefficient of variation stdDev / mean of the inter-arrival intervals of
the ascending-sorted valid timestamps (0 when the mean is not positive)
mapped through the 0.2 / 0.5 thresholds with clamped linear
interpolation between. -/
noncomputable def featureUpdateCadence (updateTimestamps : List (Option ℚ)) : ℝ :=
  if updateTimestamps.length < 4 then 1/2
  else
    let sorted := validSorted updateTimestamps
    if sorted.length < 4 then 1/2
    else
      let intervals := intervalsOf sorted
      if intervals.length = 0 then 1/2
      else
        let mean := listMean intervals
        let variance := listVariance intervals
        let stdDev : ℝ := Real.sqrt ((variance : ℚ) : ℝ)
        let cv : ℝ := if 0 < mean then stdDev / ((mean : ℚ) : ℝ) else 0
        if cv < 1/5 then 0
        else if 1/2 < cv then 1
        else clamp01R ((cv - 1/5) / (3/10))

/-- The claim's coefficient of variation: stddev over mean of the
inter-arrival intervals of the ascending-sorted valid timestamps. -/
noncomputable def cadenceCV (ts : List (Option ℚ)) : ℝ :=
  Real.sqrt ((listVariance (intervalsOf (validSorted ts)) : ℚ) : ℝ) /
    ((listMean (intervalsOf (validSorted ts)) : ℚ) : ℝ)

/-- The claim's CV-to-score map: 0.0 below 0.2, 1.0 above 0.5, the
linear interpolation (CV - 0.2) / 0.3 clamped to the unit interval in
between. -/
noncomputable def cadenceSpecScore (cv : ℝ) : ℝ :=
  if cv < 1/5 then 0
  else if 1/2 < cv then 1
  else max 0 (min 1 ((cv - 1/5) / (3/10)))

/-- Four timestamps spaced exactly 7 days apart. -/
def weeklyFourTimestamps : List (Option ℚ) :=
  [some 0, some 604800000, some 1209600000, some 1814400000]

/- ================================================================
   Theorems.
   ================================================================ -/

/-- Claim C1 counterexample: on the row (is_available=true,
tokens_remaining=0) the acquisition step grants (returns true) and stores
tokens_remaining = -1, so acquire is not denied at zero tokens and the
operation does not preserve tokens_remaining >= 0. -/
theorem c1_counterexample :
    (set_request_lock (some { is_available := true, tokens_remaining := 0 })).2 = true ∧
      (set_request_lock (some { is_available := true, tokens_remaining := 0 })).1 =
        some { is_available := false, tokens_remaining := -1 } := by
  decide

/-- Claim C1 amended: the acquisition step grants exactly when
is_available is true; tokens_remaining is never consulted, and on every
grant it is decremented by one, so tokens_remaining >= 0 is preserved
only when the granted row had tokens_remaining > 0 (or when no grant
happened); reading the row and releasing the lock never change
tokens_remaining. -/
theorem c1_grant_iff_available (r : RequestLock) :
    ((set_request_lock (some r)).2 = r.is_available) ∧
      (r.is_available = true →
        (set_request_lock (some r)).1 =
          some { is_available := false, tokens_remaining := r.tokens_remaining - 1 }) ∧
      (0 < r.tokens_remaining →
        ∀ s, (set_request_lock (some r)).1 = some s → 0 ≤ s.tokens_remaining) ∧
      (r.is_available = false → (set_request_lock (some r)).1 = some r) ∧
      (∀ s, release_request_lock (some r) = some s →
        s.tokens_remaining = r.tokens_remaining) ∧
      ((request_lock_and_tokens (some r)).1 = some r) := by
  refine ⟨?_, ?_, ?_, ?_, ?_, ?_⟩
  · cases h : r.is_available <;> simp [set_request_lock, h]
  · intro h; simp [set_request_lock, h]
  · intro htok s hs
    cases hb : r.is_available
    · simp [set_request_lock, hb] at hs
      subst hs
      omega
    · simp [set_request_lock, hb] at hs
      subst hs
      simp
      omega
  · intro h; simp [set_request_lock, h]
  · intro s hs
    simp [release_request_lock] at hs
    subst hs; rfl
  · rfl

/-- Witness for c1_grant_iff_available at the concrete row
(is_available=true, tokens_remaining=3). -/
theorem c1_grant_iff_available_witness :
    (set_request_lock (some initialLock)).1 =
      some { is_available := false, tokens_remaining := 2 } := by
  have h := (c1_grant_iff_available initialLock).2.1 (by decide)
  simpa [initialLock] using h

/-- Claim C2 counterexample: the DEFAULT_WEIGHTS table does not sum to
1.0 over the ten signals. -/
theorem c2_counterexample : ¬ weightSum DEFAULT_WEIGHTS = 1 := by
  norm_num [weightSum, DEFAULT_WEIGHTS]

/-- Claim C2 amended: the fixed per-signal weight table sums to exactly
0.95 over the ten signals, and accordingly the weights used when every
optional signal is present sum to 0.95, not 1.0. -/
theorem c2_weight_sum :
    weightSum DEFAULT_WEIGHTS = 19/20 ∧
      sumUsedWeights DEFAULT_WEIGHTS allSignalsBreakdown = 19/20 := by
  constructor
  · norm_num [weightSum, DEFAULT_WEIGHTS]
  · simp [sumUsedWeights, allSignalsBreakdown, usedWeight, weightOf, DEFAULT_WEIGHTS]
    norm_num

/-- Claim C3 counterexample: starting from a job whose stored updated_at
is 1 and re-ingesting the strictly newer value 2, exactly one
JobUpdateEvent row is inserted but the value it records is the incoming
2 — not the prior stored value 1 as the claim states. -/
theorem c3_counterexample :
    (reingestExisting ingestStateOne (some 2)).job_updates = [2] ∧
      ¬ (reingestExisting ingestStateOne (some 2)).job_updates = [1] := by
  norm_num [reingestExisting, InsertToJobUpdatesTable, insertIntoJobTable, ingestStateOne]

/-- Claim C3 amended: on re-ingest of an existing record whose incoming
updated_at is strictly newer than the stored one, exactly one new
JobUpdateEvent row is inserted and the value recorded in it is the
INCOMING updated_at (the prior value is only what the strictly-newer
comparison runs against); the insertion happens strictly before the
jobs-table upsert overwrites updated_at — indeed running the overwrite
first would never insert a row; when the incoming value is not strictly
newer, no row is inserted. -/
theorem c3_insert_before_overwrite (st : IngestState) (e i : ℚ)
    (hstored : st.job.updated_at = some e) :
    (e < i →
        (reingestExisting st (some i)).job_updates = st.job_updates ++ [i] ∧
          (reingestExisting st (some i)).job.updated_at = some i) ∧
      (¬ e < i → (reingestExisting st (some i)).job_updates = st.job_updates) ∧
      (∀ j : Option ℚ, (reingestOverwriteFirst st j).job_updates = st.job_updates) := by
  refine ⟨?_, ?_, ?_⟩
  · intro hlt
    simp [reingestExisting, InsertToJobUpdatesTable, insertIntoJobTable, hstored, hlt]
  · intro hge
    simp [reingestExisting, InsertToJobUpdatesTable, insertIntoJobTable, hstored, hge]
  · intro j
    cases j with
    | none => simp [reingestOverwriteFirst, InsertToJobUpdatesTable, insertIntoJobTable]
    | some x =>
      simp [reingestOverwriteFirst, InsertToJobUpdatesTable, insertIntoJobTable]

/-- Witness for c3_insert_before_overwrite at the stored value 1 and the
incoming value 2. -/
theorem c3_insert_before_overwrite_witness :
    (reingestExisting ingestStateOne (some 2)).job_updates = [2] ∧
      (reingestOverwriteFirst ingestStateOne (some 2)).job_updates = [] := by
  have h := c3_insert_before_overwrite ingestStateOne 1 2 rfl
  constructor
  · have h2 := (h.1 (by norm_num)).1
    simpa [ingestStateOne] using h2
  · have h3 := h.2.2 (some 2)
    simpa [ingestStateOne] using h3

/-- Helper for claim C5: the hasAtsUpdatedAtChanged conditional chain is
the claim's null-transition difference predicate after normalizing
JS-falsy values (null or empty string) to absent. -/
theorem hasAtsChanged_eq_spec (o : dbJobSnapshot) (b : Option String) :
    hasAtsUpdatedAtChanged (some o) b =
      specAtsDiffers (normalizeAts o.ats_updated_at) (normalizeAts b) := by
  rcases ha : o.ats_updated_at with _ | x <;> rcases hb : b with _ | y
  · simp [hasAtsUpdatedAtChanged, jsFalsy, normalizeAts, specAtsDiffers, ha]
  · by_cases hy : y = "" <;>
      simp [hasAtsUpdatedAtChanged, jsFalsy, normalizeAts, specAtsDiffers, ha, hy]
  · by_cases hx : x = "" <;>
      simp [hasAtsUpdatedAtChanged, jsFalsy, normalizeAts, specAtsDiffers, ha, hx]
  · by_cases hx : x = "" <;> by_cases hy : y = "" <;>
      simp [hasAtsUpdatedAtChanged, jsFalsy, normalizeAts, specAtsDiffers, ha, hx, hy] <;>
      rfl

/-- Claim C5 counterexample: an existing job whose latest snapshot
recorded ats_updated_at = "" (a non-null value), re-ingested with
updated_at = null: the claim's rule says this non-null-to-null transition
is a difference and a snapshot must be created, but the gate treats both
values as absent and creates none. -/
theorem c5_counterexample :
    snapshotDecision true (some snapshotEmptyAts) snapshotNullAts = false ∧
      specAtsDiffers snapshotEmptyAts.ats_updated_at snapshotNullAts.ats_updated_at
        = true := by
  decide

/-- Claim C5 amended: the first ingest of a job always creates exactly
one snapshot (likewise an existing job with no snapshot yet); on a
subsequent re-ingest with a latest snapshot present, a new snapshot is
created if and only if the incoming updated_at differs from the latest
snapshot's recorded value after treating JS-falsy values (null or the
empty string) as absent — a transition between absent and non-absent
counts as a difference, absent-to-absent does not; the decision reads
only the recorded updated_at values, so no snapshot is created on an
unchanged updated_at even when the content hashes differ. -/
theorem c5_snapshot_gate (latest incoming alt : dbJobSnapshot) :
    (∀ l inc, snapshotDecision false l inc = true) ∧
      (∀ inc, snapshotDecision true none inc = true) ∧
      (snapshotDecision true (some latest) incoming =
        specAtsDiffers (normalizeAts latest.ats_updated_at)
          (normalizeAts incoming.ats_updated_at)) ∧
      (incoming.ats_updated_at = alt.ats_updated_at →
        snapshotDecision true (some latest) incoming =
          snapshotDecision true (some latest) alt) ∧
      (∀ l inc, snapshotsCreated false l inc = 1) := by
  refine ⟨?_, ?_, ?_, ?_, ?_⟩
  · intro l inc; simp [snapshotDecision]
  · intro inc; simp [snapshotDecision]
  · simp only [snapshotDecision]
    simpa using hasAtsChanged_eq_spec latest incoming.ats_updated_at
  · intro hsame
    simp [snapshotDecision, hasAtsUpdatedAtChanged, hsame]
  · intro l inc; simp [snapshotsCreated, snapshotDecision]

/-- Witness for c5_snapshot_gate: concrete first-ingest and
content-irrelevance instances. -/
theorem c5_snapshot_gate_witness :
    snapshotDecision false none snapshotNullAts = true ∧
      snapshotDecision true (some snapshotEmptyAts) snapshotNullAts =
        snapshotDecision true (some snapshotEmptyAts) snapshotNullAtsAltContent := by
  refine ⟨(c5_snapshot_gate snapshotEmptyAts snapshotNullAts snapshotNullAtsAltContent).1
    none snapshotNullAts, ?_⟩
  exact (c5_snapshot_gate snapshotEmptyAts snapshotNullAts
    snapshotNullAtsAltContent).2.2.2.1 rfl

/-- Claim C4 counterexample: two jobs that agree on all five claimed
metadata fields (title, company, location, first_published,
requisition_id) but differ in updated_at produce different digest inputs,
so with an injective digest (here: the identity, standing for the
collision-free idealization of SHA-256) the metadata hashes differ —
updated_at, a sixth field, influences the metadata hash. -/
theorem c4_counterexample :
    metadataJobA.title = metadataJobB.title ∧
      metadataJobA.company_name = metadataJobB.company_name ∧
      metadataJobA.location = metadataJobB.location ∧
      metadataJobA.first_published = metadataJobB.first_published ∧
      metadataJobA.requisition_id = metadataJobB.requisition_id ∧
      ¬ generateMetadataHash id metadataJobA = generateMetadataHash id metadataJobB := by
  decide

/-- Claim C4 amended: the metadata hash is the digest of a canonical JSON
projection of exactly SIX metadata fields — title, company, location,
first_published, updated_at, requisition_id — with keys sorted for
determinism; no field of the job outside these six influences the
metadata hash (for any digest function). -/
theorem c4_six_fields (digest : String → String) (j1 j2 : AdapterJob)
    (ht : j1.title = j2.title) (hc : j1.company_name = j2.company_name)
    (hl : j1.location = j2.location) (hf : j1.first_published = j2.first_published)
    (hu : j1.updated_at = j2.updated_at) (hr : j1.requisition_id = j2.requisition_id) :
    generateMetadataHash digest j1 = generateMetadataHash digest j2 := by
  simp [generateMetadataHash, metadataProjection, ht, hc, hl, hf, hu, hr]

/-- Witness for c4_six_fields: a job and a copy differing only in the
content body hash identically. -/
theorem c4_six_fields_witness :
    generateMetadataHash id metadataJobA = generateMetadataHash id metadataJobAContentAlt :=
  c4_six_fields id metadataJobA metadataJobAContentAlt rfl rfl rfl rfl rfl rfl

/-- clamp01 never goes below 0. -/
theorem clamp01_nonneg (x : ℚ) : 0 ≤ clamp01 x := by
  unfold clamp01
  split <;> [norm_num; skip]
  split <;> [norm_num; linarith [not_lt.mp (by assumption : ¬ x < 0)]]

/-- clamp01 never exceeds 1. -/
theorem clamp01_le_one (x : ℚ) : clamp01 x ≤ 1 := by
  unfold clamp01
  split <;> [norm_num; skip]
  split <;> [norm_num; linarith [not_lt.mp (by assumption : ¬ 1 < x)]]

/-- clamp01 is the identity on the unit interval. -/
theorem clamp01_eq_self {x : ℚ} (h0 : 0 ≤ x) (h1 : x ≤ 1) : clamp01 x = x := by
  unfold clamp01
  rw [if_neg (by linarith), if_neg (by linarith)]

/-- Each entry's used weight is nonnegative. -/
theorem usedWeight_nonneg (w : ScoreWeights) (kv : String × ℚ) :
    0 ≤ usedWeight w kv := by
  unfold usedWeight
  cases weightOf w kv.1 with
  | none => norm_num
  | some wt =>
    by_cases h : 0 < wt
    · simpa [h] using le_of_lt h
    · simp [h]

/-- Each entry's weighted clamped value is nonnegative. -/
theorem weightedValue_nonneg (w : ScoreWeights) (kv : String × ℚ) :
    0 ≤ weightedValue w kv := by
  unfold weightedValue
  cases weightOf w kv.1 with
  | none => norm_num
  | some wt =>
    by_cases h : 0 < wt
    · simp only [h, if_true]
      exact mul_nonneg (le_of_lt h) (clamp01_nonneg kv.2)
    · simp [h]

/-- Each entry's weighted clamped value is at most its used weight. -/
theorem weightedValue_le_usedWeight (w : ScoreWeights) (kv : String × ℚ) :
    weightedValue w kv ≤ usedWeight w kv := by
  unfold weightedValue usedWeight
  cases weightOf w kv.1 with
  | none => norm_num
  | some wt =>
    by_cases h : 0 < wt
    · simp only [h, if_true]
      calc wt * clamp01 kv.2 ≤ wt * 1 :=
            mul_le_mul_of_nonneg_left (clamp01_le_one kv.2) (le_of_lt h)
        _ = wt := mul_one wt
    · simp [h]

/-- The sum of used weights is nonnegative. -/
theorem sumUsedWeights_nonneg (w : ScoreWeights) (b : Breakdown) :
    0 ≤ sumUsedWeights w b := by
  unfold sumUsedWeights
  apply List.sum_nonneg
  intro x hx
  rcases List.mem_map.mp hx with ⟨kv, _, rfl⟩
  exact usedWeight_nonneg w kv

/-- The weighted sum is nonnegative. -/
theorem sumWeighted_nonneg (w : ScoreWeights) (b : Breakdown) :
    0 ≤ sumWeighted w b := by
  unfold sumWeighted
  apply List.sum_nonneg
  intro x hx
  rcases List.mem_map.mp hx with ⟨kv, _, rfl⟩
  exact weightedValue_nonneg w kv

/-- The weighted sum is bounded by the sum of used weights. -/
theorem sumWeighted_le_sumUsedWeights (w : ScoreWeights) (b : Breakdown) :
    sumWeighted w b ≤ sumUsedWeights w b := by
  unfold sumWeighted sumUsedWeights
  exact List.sum_le_sum fun kv _ => weightedValue_le_usedWeight w kv

/-- The sum of a constant-one map is the length. -/
theorem sum_map_one (l : List (String × ℚ)) :
    (l.map (fun _ => (1:ℚ))).sum = (l.length : ℚ) := by
  induction l with
  | nil => simp
  | cons hd tl ih => simp [ih]; ring

/-- Claim C9: the aggregated score equals the sum of weight times clamped
value over present signals with positive weight divided by the sum of
those weights; when no positive weight applies and the breakdown is
nonempty it equals the unweighted arithmetic mean of the clamped present
values; and the score always lies in the unit interval (in particular it
is well defined whenever at least one signal is present). -/
theorem c9_finalize_formula (b : Breakdown) (w : ScoreWeights) :
    (0 < sumUsedWeights w b →
        finalizeScore b w = sumWeighted w b / sumUsedWeights w b) ∧
      (sumUsedWeights w b = 0 → ¬ b = [] →
        finalizeScore b w = (b.map (fun kv => clamp01 kv.2)).sum / (b.length : ℚ)) ∧
      (0 ≤ finalizeScore b w ∧ finalizeScore b w ≤ 1) := by
  have hq0 : 0 ≤ sumWeighted w b := sumWeighted_nonneg w b
  have hle : sumWeighted w b ≤ sumUsedWeights w b := sumWeighted_le_sumUsedWeights w b
  refine ⟨?_, ?_, ?_⟩
  · intro hpos
    have hdiv0 : 0 ≤ sumWeighted w b / sumUsedWeights w b := div_nonneg hq0 (le_of_lt hpos)
    have hdiv1 : sumWeighted w b / sumUsedWeights w b ≤ 1 :=
      (div_le_one hpos).mpr hle
    simp only [finalizeScore, if_pos hpos]
    exact clamp01_eq_self hdiv0 hdiv1
  · intro hzero hne
    have hlen : 0 < b.length := List.length_pos.mpr hne
    have hlenq : (0:ℚ) < (b.length : ℚ) := by exact_mod_cast hlen
    have hsum0 : 0 ≤ (b.map (fun kv => clamp01 kv.2)).sum := by
      apply List.sum_nonneg
      intro x hx
      rcases List.mem_map.mp hx with ⟨kv, _, rfl⟩
      exact clamp01_nonneg kv.2
    have hsum1 : (b.map (fun kv => clamp01 kv.2)).sum ≤ (b.length : ℚ) := by
      calc (b.map (fun kv => clamp01 kv.2)).sum
          ≤ (b.map (fun _ => (1:ℚ))).sum :=
            List.sum_le_sum fun kv _ => clamp01_le_one kv.2
        _ = (b.length : ℚ) := sum_map_one b
    have hnotpos : ¬ 0 < sumUsedWeights w b := by rw [hzero]; norm_num
    have hlenne : ¬ b.length = 0 := by
      intro h; exact hne (List.length_eq_zero.mp h)
    simp only [finalizeScore, if_neg hnotpos, if_neg hlenne]
    exact clamp01_eq_self (div_nonneg hsum0 (le_of_lt hlenq))
      ((div_le_one hlenq).mpr hsum1)
  · by_cases hpos : 0 < sumUsedWeights w b
    · simp only [finalizeScore, if_pos hpos]
      exact ⟨clamp01_nonneg _, clamp01_le_one _⟩
    · by_cases hlen : b.length = 0
      · simp only [finalizeScore, if_neg hpos, if_pos hlen]
        norm_num
      · simp only [finalizeScore, if_neg hpos, if_neg hlen]
        exact ⟨clamp01_nonneg _, clamp01_le_one _⟩

/-- Witness for c9_finalize_formula: with only freshness = 1.0 and
link_integrity = 1.0 present under the default weights, the used weights
sum to 0.25 and the weighted result is (0.16 + 0.09) / 0.25 = 1. -/
theorem c9_finalize_formula_witness :
    sumUsedWeights DEFAULT_WEIGHTS freshLinkBreakdown = 1/4 ∧
      finalizeScore freshLinkBreakdown DEFAULT_WEIGHTS = 1 := by
  have hsum : sumUsedWeights DEFAULT_WEIGHTS freshLinkBreakdown = 1/4 := by
    simp [sumUsedWeights, freshLinkBreakdown, usedWeight, weightOf, DEFAULT_WEIGHTS]
    norm_num
  have hw : sumWeighted DEFAULT_WEIGHTS freshLinkBreakdown = 1/4 := by
    simp [sumWeighted, freshLinkBreakdown, weightedValue, weightOf, DEFAULT_WEIGHTS, clamp01]
    norm_num
  have h := (c9_finalize_formula freshLinkBreakdown DEFAULT_WEIGHTS).1
    (by rw [hsum]; norm_num)
  refine ⟨hsum, ?_⟩
  rw [h, hsum, hw]
  norm_num

/-- natPopcount of a value below 2^k is the number of set bits among the
first k bit positions. -/
theorem natPopcount_eq_card (k : Nat) :
    ∀ n, n < 2^k →
      natPopcount n = ((Finset.range k).filter (fun i => n.testBit i)).card := by
  induction k with
  | zero =>
    intro n hn
    have hn0 : n = 0 := by simpa using hn
    subst hn0
    rw [natPopcount]
    simp
  | succ k ih =>
    intro n hn
    by_cases h0 : n = 0
    · subst h0
      rw [natPopcount]
      simp
    · rw [natPopcount, if_neg h0]
      have hn2 : n / 2 < 2^k := by
        rw [pow_succ] at hn
        omega
      rw [ih (n/2) hn2]
      rw [Finset.card_filter, Finset.card_filter, Finset.sum_range_succ']
      have hb : (if n.testBit 0 then 1 else 0) = n % 2 := by
        rcases Nat.mod_two_eq_zero_or_one n with h | h <;>
          simp [Nat.testBit_zero, h]
      simp only [Nat.testBit_succ]
      rw [hb]
      exact Nat.add_comm _ _

/-- Claim C8: when both fingerprint strings parse as 64-bit values, the
change-significance predicate computes the Hamming distance as the
popcount of the XOR — equal to the number of bit positions below 64 where
the two fingerprints differ — and classifies the change as significant
iff that distance strictly exceeds the threshold (default 10); equal
fingerprints have distance 0 and are never significant. -/
theorem c8_hamming (s1 s2 : String) (a b : Nat)
    (h1 : parseBigInt s1 = some (a : Int)) (h2 : parseBigInt s2 = some (b : Int))
    (ha : a < 2^64) (hb : b < 2^64) :
    simhashHammingDistance s1 s2 =
        ((Finset.range 64).filter (fun i => ¬ a.testBit i = b.testBit i)).card ∧
      (∀ th, isSimhashChangeSignificant s1 s2 th =
          decide (th < simhashHammingDistance s1 s2)) ∧
      (a = b → simhashHammingDistance s1 s2 = 0 ∧
        isSimhashChangeSignificant s1 s2 = false) := by
  have hxor : Int.xor (a : Int) (b : Int) = ((a ^^^ b : Nat) : Int) := rfl
  have hdist : simhashHammingDistance s1 s2 =
      ((Finset.range 64).filter (fun i => ¬ a.testBit i = b.testBit i)).card := by
    unfold simhashHammingDistance
    rw [h1, h2]
    simp only [hxor]
    have hfilters :
        ((Finset.range 64).filter (fun i => (a ^^^ b).testBit i)).card =
          ((Finset.range 64).filter (fun i => ¬ a.testBit i = b.testBit i)).card := by
      apply congrArg Finset.card
      apply Finset.filter_congr
      intro i _
      simp [Nat.testBit_xor, bne_iff_ne]
    by_cases hz : (a ^^^ b) = 0
    · have hle : ((a ^^^ b : Nat) : Int) ≤ 0 := by
        rw [hz]; norm_num
      rw [if_pos hle]
      rw [← hfilters, hz]
      simp
    · have hpos : (0:Int) < ((a ^^^ b : Nat) : Int) := by
        exact_mod_cast Nat.pos_of_ne_zero hz
      rw [if_neg (not_le.mpr hpos)]
      have htn : ((a ^^^ b : Nat) : Int).toNat = (a ^^^ b) := Int.toNat_natCast _
      rw [htn, natPopcount_eq_card 64 (a ^^^ b) (Nat.xor_lt_two_pow ha hb), hfilters]
  refine ⟨hdist, fun th => rfl, ?_⟩
  intro hab
  subst hab
  have h0 : simhashHammingDistance s1 s2 = 0 := by
    rw [hdist]
    simp
  refine ⟨h0, ?_⟩
  rw [isSimhashChangeSignificant, h0]
  decide

/-- Witness for c8_hamming at the parseable fingerprints "9" and "10". -/
theorem c8_hamming_witness :
    simhashHammingDistance "9" "10" =
      ((Finset.range 64).filter (fun i => ¬ (9:Nat).testBit i = (10:Nat).testBit i)).card :=
  (c8_hamming "9" "10" 9 10 (by decide) (by decide) (by decide) (by decide)).1

/-- Claim C10: when at least one simhash string does not parse as an
integer, the Hamming-distance function returns the maximum distance 64
instead of throwing, so under the default threshold 10 such a comparison
is always classified as a significant change. -/
theorem c10_malformed (s1 s2 : String)
    (h : parseBigInt s1 = none ∨ parseBigInt s2 = none) :
    simhashHammingDistance s1 s2 = 64 ∧
      isSimhashChangeSignificant s1 s2 = true := by
  have hd : simhashHammingDistance s1 s2 = 64 := by
    unfold simhashHammingDistance
    rcases h with h | h
    · rw [h]
    · cases hx : parseBigInt s1 with
      | none => rw [h]
      | some v => rw [h]
  refine ⟨hd, ?_⟩
  rw [isSimhashChangeSignificant, hd]
  decide

/-- Witness for c10_malformed: "abc" is not BigInt-parseable, so pairing
it with the valid fingerprint "0" yields distance 64 and a significant
change. -/
theorem c10_malformed_witness :
    simhashHammingDistance "abc" "0" = 64 ∧
      isSimhashChangeSignificant "abc" "0" = true :=
  c10_malformed "abc" "0" (Or.inl (by decide))

/-- Splitting an all-whitespace character list yields no tokens. -/
theorem tokenizeAux_all_space (l : List Char) (hl : l.all jsIsSpace = true) :
    tokenizeAux l [] = [] := by
  induction l with
  | nil => rfl
  | cons c rest ih =>
    simp only [List.all_cons, Bool.and_eq_true] at hl
    simp [tokenizeAux, hl.1, ih hl.2]

/-- Lowercasing keeps whitespace characters whitespace. -/
theorem jsIsSpace_toLower {c : Char} (h : jsIsSpace c = true) :
    jsIsSpace (Char.toLower c) = true := by
  have hc : ((((c = ' ' ∨ c = '\t') ∨ c = '\n') ∨ c = '\r') ∨ c = '\x0b') ∨ c = '\x0c' := by
    simpa [jsIsSpace] using h
  rcases hc with ((((h1 | h1) | h1) | h1) | h1) | h1 <;> subst h1 <;> decide

/-- Punctuation stripping keeps whitespace characters whitespace. -/
theorem jsIsSpace_normalizeChar {c : Char} (h : jsIsSpace c = true) :
    jsIsSpace (normalizeChar c) = true := by
  simpa [normalizeChar, h] using h

/-- A whitespace-only input tokenizes to the empty token list. -/
theorem tokenize_of_whitespace (text : String) (h : isWhitespaceOnly text = true) :
    tokenize text = [] := by
  unfold tokenize tokenizeChars
  apply tokenizeAux_all_space
  simp only [isWhitespaceOnly, List.all_eq_true] at h
  simp only [List.all_eq_true, List.mem_map]
  rintro x ⟨y, ⟨z, hz, rfl⟩, rfl⟩
  exact jsIsSpace_normalizeChar (jsIsSpace_toLower (h z hz))

/-- Bit characterization of the bit-assembly fold: bit j of the result is
set exactly when it was set in the accumulator or j is a fold index whose
predicate holds. -/
theorem testBit_orFold (l : List Nat) (q : Nat → Prop) [DecidablePred q] :
    ∀ (acc j : Nat),
      ((l.foldl (fun a i => if q i then a ||| (1 <<< i) else a) acc).testBit j)
        = (acc.testBit j || (decide (j ∈ l) && decide (q j))) := by
  induction l with
  | nil => intro acc j; simp
  | cons i rest ih =>
    intro acc j
    rw [List.foldl_cons]
    by_cases hq : q i
    · rw [if_pos hq, ih]
      rw [Nat.testBit_or]
      have h2 : (1 <<< i).testBit j = decide (i = j) := by
        rw [Nat.one_shiftLeft]
        exact Nat.testBit_two_pow
      rw [h2]
      by_cases hij : i = j
      · subst hij
        simp [hq]
      · have hji : ¬ j = i := fun hsymm => hij hsymm.symm
        simp [hij, hji]
    · rw [if_neg hq, ih]
      by_cases hij : i = j
      · subst hij
        simp [hq]
      · have hji : ¬ j = i := fun hsymm => hij hsymm.symm
        simp [hji]

/-- Claim C7: the 64-bit simhash is a deterministic pure function of the
digest and the input text; each output bit position i is set iff i < 64
and the per-position accumulator (summing +1 when bit i of the token's
digest is 1 and -1 otherwise, over the lowercased, punctuation-stripped,
whitespace-split tokens) is strictly positive; and every empty or
whitespace-only input yields the all-zero fingerprint. -/
theorem c7_simhash (digest : String → Nat) (text : String) :
    (∀ i, (generateSimhash digest text).testBit i =
        (decide (i < 64) && decide (0 < simhashWeight digest (tokenize text) i))) ∧
      (isWhitespaceOnly text = true → generateSimhash digest text = 0) ∧
      generateSimhash digest text = generateSimhash digest text := by
  refine ⟨?_, ?_, rfl⟩
  · intro i
    by_cases hws : isWhitespaceOnly text = true
    · rw [generateSimhash, if_pos hws, tokenize_of_whitespace text hws]
      simp [simhashWeight]
    · cases he : (tokenize text).isEmpty with
      | true =>
        have hte : tokenize text = [] := by
          cases htk : tokenize text with
          | nil => rfl
          | cons hd tl => rw [htk] at he; simp at he
        simp [generateSimhash, hws, he, hte, simhashWeight]
      | false =>
        simp only [generateSimhash, if_neg hws, he, Bool.false_eq_true, if_false]
        rw [testBit_orFold]
        simp [List.mem_range]
  · intro h
    rw [generateSimhash, if_pos h]

/-- Witness for c7_simhash: a whitespace-only input yields the all-zero
fingerprint (under the constant-zero digest). -/
theorem c7_simhash_witness :
    generateSimhash (fun _ => 0) "  " = 0 :=
  (c7_simhash (fun _ => 0) "  ").2.1 (by decide)

/-- intervalsOf shortens a list by one. -/
theorem intervalsOf_length : ∀ l : List ℚ, (intervalsOf l).length = l.length - 1
  | [] => rfl
  | [_] => rfl
  | a :: b :: rest => by
    have ih := intervalsOf_length (b :: rest)
    simp only [intervalsOf, List.length_cons] at ih ⊢
    omega

/-- The intervals of an ascending-sorted list are nonnegative. -/
theorem intervalsOf_nonneg : ∀ l : List ℚ, l.Sorted (· ≤ ·) →
    ∀ x ∈ intervalsOf l, 0 ≤ x
  | [] => by
    intro _ x hx
    simp [intervalsOf] at hx
  | [_] => by
    intro _ x hx
    simp [intervalsOf] at hx
  | a :: b :: rest => by
    intro hs x hx
    have hcons := List.sorted_cons.mp hs
    simp only [intervalsOf, List.mem_cons] at hx
    rcases hx with rfl | hx
    · have hab : a ≤ b := hcons.1 b (by simp)
      have hms : (0:ℚ) < msPerDay := by norm_num [msPerDay]
      exact div_nonneg (by linarith) (le_of_lt hms)
    · exact intervalsOf_nonneg (b :: rest) hcons.2 x hx

/-- The mean of the intervals of an ascending-sorted list is
nonnegative. -/
theorem listMean_intervals_nonneg (l : List ℚ) (hs : l.Sorted (· ≤ ·)) :
    0 ≤ listMean (intervalsOf l) := by
  unfold listMean
  apply div_nonneg
  · exact List.sum_nonneg (intervalsOf_nonneg l hs)
  · exact Nat.cast_nonneg _

/-- The real clamp is the max/min clamp of the unit interval. -/
theorem clamp01R_eq (x : ℝ) : clamp01R x = max 0 (min 1 x) := by
  unfold clamp01R
  by_cases h0 : x < 0
  · rw [if_pos h0, min_eq_right (by linarith), max_eq_left (by linarith)]
  · by_cases h1 : 1 < x
    · rw [if_neg h0, if_pos h1, min_eq_left (le_of_lt h1), max_eq_right zero_le_one]
    · rw [if_neg h0, if_neg h1, min_eq_right (not_lt.mp h1),
        max_eq_right (not_lt.mp h0)]

/-- Claim C6: with fewer than 4 valid timestamps the cadence analyzer
returns exactly 0.5; with 4 or more it sorts ascending, computes the
inter-arrival intervals in days and their coefficient of variation
CV = stddev / mean, and returns 0.0 below CV 0.2, 1.0 above CV 0.5, and
the clamped linear interpolation (CV - 0.2) / 0.3 in between; and 4
timestamps spaced exactly 7 days apart score 0.0. -/
theorem c6_cadence (ts : List (Option ℚ)) :
    ((ts.filterMap id).length < 4 → featureUpdateCadence ts = 1/2) ∧
      (4 ≤ (ts.filterMap id).length →
        featureUpdateCadence ts = cadenceSpecScore (cadenceCV ts)) ∧
      featureUpdateCadence weeklyFourTimestamps = 0 := by
  have hmain : ∀ t : List (Option ℚ), 4 ≤ (t.filterMap id).length →
      featureUpdateCadence t = cadenceSpecScore (cadenceCV t) := by
    intro t hv
    have hslen : (validSorted t).length = (t.filterMap id).length := by
      unfold validSorted
      exact List.length_insertionSort _ _
    have hle := List.length_filterMap_le id t
    have hl : ¬ t.length < 4 := by omega
    have hs : ¬ (validSorted t).length < 4 := by omega
    have hil := intervalsOf_length (validSorted t)
    have hi0 : ¬ (intervalsOf (validSorted t)).length = 0 := by omega
    have hsorted : (validSorted t).Sorted (· ≤ ·) := List.sorted_insertionSort _ _
    have hm0 : 0 ≤ listMean (intervalsOf (validSorted t)) :=
      listMean_intervals_nonneg _ hsorted
    have hcv : (if 0 < listMean (intervalsOf (validSorted t)) then
          Real.sqrt ((listVariance (intervalsOf (validSorted t)) : ℚ) : ℝ) /
            ((listMean (intervalsOf (validSorted t)) : ℚ) : ℝ)
        else 0) = cadenceCV t := by
      unfold cadenceCV
      by_cases hmp : 0 < listMean (intervalsOf (validSorted t))
      · rw [if_pos hmp]
      · have hz : listMean (intervalsOf (validSorted t)) = 0 :=
          le_antisymm (not_lt.mp hmp) hm0
        rw [if_neg hmp, hz]
        norm_num
    simp only [featureUpdateCadence, if_neg hl, if_neg hs, if_neg hi0]
    rw [hcv]
    unfold cadenceSpecScore
    rw [clamp01R_eq]
  refine ⟨?_, hmain ts, ?_⟩
  · intro hv
    have hslen : (validSorted ts).length = (ts.filterMap id).length := by
      unfold validSorted
      exact List.length_insertionSort _ _
    by_cases hl : ts.length < 4
    · simp only [featureUpdateCadence, if_pos hl]
    · have hs : (validSorted ts).length < 4 := by omega
      simp only [featureUpdateCadence, if_neg hl, if_pos hs]
  · have hfm : weeklyFourTimestamps.filterMap id =
        [(0:ℚ), 604800000, 1209600000, 1814400000] := rfl
    have hvs : validSorted weeklyFourTimestamps =
        [(0:ℚ), 604800000, 1209600000, 1814400000] := by
      unfold validSorted
      rw [hfm]
      apply List.Sorted.insertionSort_eq
      norm_num [List.sorted_cons]
    have hint : intervalsOf [(0:ℚ), 604800000, 1209600000, 1814400000] =
        [7, 7, 7] := by
      simp only [intervalsOf]
      norm_num [msPerDay]
    have hmean : listMean [(7:ℚ), 7, 7] = 7 := by
      norm_num [listMean]
    have hvar : listVariance [(7:ℚ), 7, 7] = 0 := by
      norm_num [listVariance, listMean]
    have hcvw : cadenceCV weeklyFourTimestamps = 0 := by
      unfold cadenceCV
      rw [hvs, hint, hmean, hvar]
      push_cast
      rw [Real.sqrt_zero]
      norm_num
    have hv4 : 4 ≤ (weeklyFourTimestamps.filterMap id).length := by
      rw [hfm]
      norm_num
    rw [hmain weeklyFourTimestamps hv4, hcvw]
    unfold cadenceSpecScore
    rw [if_pos (by norm_num)]

/-- Witness for c6_cadence: the short-history branch at a concrete
two-element history, via the theorem's first conjunct. -/
theorem c6_cadence_witness :
    featureUpdateCadence [some 0, some 604800000] = 1/2 :=
  (c6_cadence [some 0, some 604800000]).1 (by simp)

end JobBusters
